import Mathlib

/-!
# Verification of the ASF extractor core

Shallow embedding of `media/libstagefright/AsfExtractor.cpp` (the ASF
container demultiplexer).  Machine integers of the source (`int64_t`
offsets, `uint32_t` packet numbers, `size_t` lengths) are modelled as
`Nat`/`Int`; all arithmetic in the modelled paths is additive and stays
far below the 64-bit range, so no wrap-around modelling is needed.
Reference-counted `MediaBuffer` allocations are modelled as a heap
(`List (List Nat)` indexed by allocation id) so that zero-copy clones
(`MediaBuffer::clone`) genuinely share their backing bytes.  The
external collaborators (`DataSource::readAt`, `AsfStreamParser`) are
modelled as function parameters, mirroring the interface boundary the
extractor consumes.
-/

set_option autoImplicit false

namespace Asf

/-- `status_t` values used by the extractor paths under verification.
(`OK`, `BAD_VALUE`, `ERROR_END_OF_STREAM`, `ERROR_UNSUPPORTED` appear in
`AsfExtractor.cpp`; other codes belong to paths that are not modelled.) -/
inductive Status where
  | OK
  | BAD_VALUE
  | ERROR_END_OF_STREAM
  | ERROR_UNSUPPORTED
  deriving DecidableEq, Repr

/-- `MediaSource::ReadOptions::SeekMode`. -/
inductive SeekMode where
  | SEEK_PREVIOUS_SYNC
  | SEEK_NEXT_SYNC
  | SEEK_CLOSEST_SYNC
  | SEEK_CLOSEST
  deriving DecidableEq, Repr

/-- `MediaSource::ReadOptions`: `seekTo` is `some (seekTimeUs, mode)`
exactly when `getSeekTo` returns `true`. -/
structure ReadOptions where
  seekTo : Option (Int × SeekMode)
  deriving DecidableEq, Repr

/-- One `AsfPayloadDataInfo` record as produced by
`AsfStreamParser::parseDataPacket`.  `payloadData` models the
`payloadSize` bytes at the payload pointer inside the packet buffer. -/
structure Payload where
  streamNumber : Nat
  mediaObjectLength : Nat
  payloadSize : Nat
  offsetIntoMediaObject : Nat
  presentationTime : Nat
  keyframe : Bool
  payloadData : List Nat
  deriving DecidableEq, Repr

/-- A `MediaBuffer`: an allocation (identified by `allocId` into the
extractor heap) of `allocSize` bytes, a logical range
`[rangeOffset, rangeOffset + rangeLength)`, and the metadata stamped by
the extractor (`kKeyTime` in microseconds, `kKeyIsSyncFrame`).
`MediaBuffer::clone` shares `allocId` and gets its own range. -/
structure MBuf where
  allocId : Nat
  allocSize : Nat
  rangeOffset : Nat
  rangeLength : Nat
  timeUs : Nat
  isSync : Bool
  deriving DecidableEq, Repr

/-- `AsfExtractor::Track` (the per-stream record).  `meta` carries only
codec metadata that no modelled path reads back, so it is omitted. -/
structure Track where
  streamNumber : Nat
  encrypted : Bool
  skipTrack : Bool
  seekCompleted : Bool
  bufferActive : Option MBuf
  bufferQueue : List MBuf
  deriving DecidableEq, Repr

/-- The extractor state touched by the demuxing/seeking paths: the track
list (the source's intrusive `mFirstTrack`/`next` chain, in order), the
heap of live `MediaBuffer` allocations, and the packet-region fields. -/
structure ExtState where
  tracks : List Track
  heap : List (List Nat)
  dataPacketBeginOffset : Nat
  dataPacketEndOffset : Nat
  dataPacketCurrentOffset : Nat
  dataPacketSize : Nat
  deriving DecidableEq, Repr

/-- `AsfAudioStreamInfo` (only the fields `setupTracks` copies into a
`Track`; codec metadata is omitted, see `Track`). -/
structure AudioStreamInfo where
  streamNumber : Nat
  encryptedContentFlag : Bool
  deriving DecidableEq, Repr

/-- `AsfVideoStreamInfo` (same restriction as `AudioStreamInfo`). -/
structure VideoStreamInfo where
  streamNumber : Nat
  encryptedContentFlag : Bool
  deriving DecidableEq, Repr

/-- The `while (audioInfo || videoInfo)` loop of
`AsfExtractor::setupTracks`: consumes the audio descriptor chain first,
then the video chain, appending one fresh `Track` per descriptor
(`skipTrack = true`, `seekCompleted = false`, `bufferActive = NULL`). -/
def setupTracksLoop : List AudioStreamInfo → List VideoStreamInfo → List Track
  | a :: as, vs =>
      { streamNumber := a.streamNumber, encrypted := a.encryptedContentFlag,
        skipTrack := true, seekCompleted := false,
        bufferActive := none, bufferQueue := [] } :: setupTracksLoop as vs
  | [], v :: vs =>
      { streamNumber := v.streamNumber, encrypted := v.encryptedContentFlag,
        skipTrack := true, seekCompleted := false,
        bufferActive := none, bufferQueue := [] } :: setupTracksLoop [] vs
  | [], [] => []

/-- `AsfExtractor::setupTracks`.  The source sets
`AsfAudioStreamInfo* audioInfo = NULL; //mParser->getAudioInfo();`
(with the log line "Audio is temporarily disabled"), so the parser's
audio descriptor chain is ignored and only the video chain contributes
tracks. -/
def setupTracks (parserAudioInfo : List AudioStreamInfo)
    (parserVideoInfo : List VideoStreamInfo) : List Track :=
  let audioInfo : List AudioStreamInfo := []
  let _ := parserAudioInfo
  setupTracksLoop audioInfo parserVideoInfo

/-- The counting loop of `AsfExtractor::countTracks` (walks the track
chain).  `countTracks` itself returns this count after a successful
`initialize()`; on an initialization failure it returns 0 (a path with
no valid container, outside the claims). -/
def countTracksLoop : List Track → Nat
  | [] => 0
  | _ :: rest => countTracksLoop rest + 1

/-- `AsfExtractor::countTracks` on an initialized extractor. -/
def countTracks (tracks : List Track) : Nat :=
  countTracksLoop tracks

theorem countTracksLoop_eq_length (l : List Track) :
    countTracksLoop l = l.length := by
  induction l with
  | nil => rfl
  | cons t rest ih => simp [countTracksLoop, ih]

theorem setupTracksLoop_nil_length (vs : List VideoStreamInfo) :
    (setupTracksLoop [] vs).length = vs.length := by
  induction vs with
  | nil => simp [setupTracksLoop]
  | cons v vs ih => simp [setupTracksLoop, ih]

/-- `AsfExtractor::getTrackByTrackIndex`: `track = mFirstTrack;
while (index > 0) { if (!track) return NULL; track = track->next; --index; }
return track;`.  The list argument is the remaining chain. -/
def getTrackByTrackIndex : List Track → Int → Option Track
  | tracks, index =>
    if index > 0 then
      match tracks with
      | [] => none
      | _ :: rest => getTrackByTrackIndex rest (index - 1)
    else tracks.head?

/-- The walk of `AsfExtractor::getTrackByStreamNumber`, returning the
position of the matched node instead of a pointer (the position
identifies the node for functional updates). -/
def findTrackIdx : List Track → Nat → Nat → Option Nat
  | [], _, _ => none
  | t :: rest, stream, i =>
      if t.streamNumber = stream then some i else findTrackIdx rest stream (i + 1)

/-- `AsfExtractor::getTrackByStreamNumber` (first matching node wins). -/
def getTrackByStreamNumber (tracks : List Track) (stream : Nat) : Option Nat :=
  findTrackIdx tracks stream 0

/-- `memcpy(dst + off, src, src.length)` on a byte list. -/
def writeBytes (dst : List Nat) (off : Nat) (src : List Nat) : List Nat :=
  dst.take off ++ src ++ dst.drop (off + src.length)

/-- Write into the allocation `allocId` of the heap at byte offset
`off` (models `memcpy(buffer->data() + off, src, n)`; the buffers the
extractor writes through always have `rangeOffset = 0` at write time,
so `data()` is the allocation base). -/
def heapWrite (heap : List (List Nat)) (allocId off : Nat) (src : List Nat) :
    List (List Nat) :=
  match heap.get? allocId with
  | none => heap
  | some dst => heap.set allocId (writeBytes dst off src)

/-- The `MediaBuffer` built in the whole-object / first-fragment branch
of `AsfExtractor::readPacket`, for an object of length `L`: allocation
size `((L + 4096 - 1) / 4096) * 4096`, range `[0, L)`,
`kKeyTime = presentationTime * 1000`, `kKeyIsSyncFrame` iff `keyframe`.
`allocId` is the fresh heap slot. -/
def objBuffer (allocId L time : Nat) (kf : Bool) : MBuf :=
  { allocId := allocId,
    allocSize := ((L + 4096 - 1) / 4096) * 4096,
    rangeOffset := 0,
    rangeLength := L,
    timeUs := time * 1000,
    isSync := kf }

/-- The buffer `new MediaBuffer(size)` + `set_range` + metadata stamping
builds for payload `p` (see `objBuffer`). -/
def allocObjBuffer (allocId : Nat) (p : Payload) : MBuf :=
  objBuffer allocId p.mediaObjectLength p.presentationTime p.keyframe

/-- The bytes currently in a buffer's logical range. -/
def bufContent (st : ExtState) (b : MBuf) : List Nat :=
  (((st.heap.get? b.allocId).getD []).drop b.rangeOffset).take b.rangeLength

/-- The per-payload body of the `while (payload)` loop of
`AsfExtractor::readPacket`.  The `new MediaBuffer` allocation is
modelled as always succeeding (the `NO_MEMORY` abort path is the only
part not modelled). -/
def processPayload (st : ExtState) (p : Payload) : ExtState :=
  match getTrackByStreamNumber st.tracks p.streamNumber with
  | none => st
  | some tIdx =>
    match st.tracks.get? tIdx with
    | none => st
    | some track =>
      if track.skipTrack then st
      else if p.mediaObjectLength = p.payloadSize ∨ p.offsetIntoMediaObject = 0 then
        -- a complete object or the first payload of a fragmented object
        let buffer := allocObjBuffer st.heap.length p
        let content := writeBytes (List.replicate buffer.allocSize 0) 0 p.payloadData
        let heap1 := st.heap ++ [content]
        if p.mediaObjectLength = p.payloadSize then
          -- a complete object: push to the track queue
          { st with
            heap := heap1
            tracks := st.tracks.set tIdx
              { track with bufferQueue := track.bufferQueue ++ [buffer] } }
        else
          -- first payload of a fragmented object: becomes bufferActive;
          -- for an encrypted track a clone with range [0, payloadSize)
          -- is pushed immediately
          if track.encrypted then
            let clone := { buffer with rangeOffset := 0, rangeLength := p.payloadSize }
            { st with
              heap := heap1
              tracks := st.tracks.set tIdx
                { track with
                  bufferActive := some buffer
                  bufferQueue := track.bufferQueue ++ [clone] } }
          else
            { st with
              heap := heap1
              tracks := st.tracks.set tIdx { track with bufferActive := some buffer } }
      else
        match track.bufferActive with
        | none =>
          -- "Receiving corrupt or discontinuous data packet": drop entry
          st
        | some act =>
          let heap1 := heapWrite st.heap act.allocId p.offsetIntoMediaObject p.payloadData
          if p.offsetIntoMediaObject + p.payloadSize = p.mediaObjectLength then
            -- the last payload of a fragmented object
            if track.encrypted then
              let final := { act with
                             rangeOffset := p.offsetIntoMediaObject
                             rangeLength := p.payloadSize }
              { st with
                heap := heap1
                tracks := st.tracks.set tIdx
                  { track with
                    bufferActive := none
                    bufferQueue := track.bufferQueue ++ [final] } }
            else
              { st with
                heap := heap1
                tracks := st.tracks.set tIdx
                  { track with
                    bufferActive := none
                    bufferQueue := track.bufferQueue ++ [act] } }
          else
            -- middle payload of a fragmented object
            if track.encrypted then
              let clone := { act with
                             rangeOffset := p.offsetIntoMediaObject
                             rangeLength := p.payloadSize }
              { st with
                heap := heap1
                tracks := st.tracks.set tIdx
                  { track with bufferQueue := track.bufferQueue ++ [clone] } }
            else
              { st with heap := heap1 }

/-- The full payload loop of `AsfExtractor::readPacket`. -/
def processPayloads (st : ExtState) (payloads : List Payload) : ExtState :=
  payloads.foldl processPayload st

/-- `AsfExtractor::readPacket`.  `readAt off n = some bytes` models a
full `n`-byte read at `off`; `none` models any return value other than
`n` (short read / failure).  `parsePkt bytes = some payloads` models
`parseDataPacket` returning `ASF_PARSER_SUCCESS` with that payload
list; `none` models a non-success status, and an empty list models the
`payloads == NULL` outcome — both are reported as end-of-stream with
the cursor already advanced. -/
def readPacket (readAt : Nat → Nat → Option (List Nat))
    (parsePkt : List Nat → Option (List Payload)) (st : ExtState) :
    ExtState × Status :=
  if st.dataPacketCurrentOffset + st.dataPacketSize > st.dataPacketEndOffset then
    (st, Status.ERROR_END_OF_STREAM)
  else
    match readAt st.dataPacketCurrentOffset st.dataPacketSize with
    | none => (st, Status.ERROR_END_OF_STREAM)
    | some packetData =>
      -- update next read position
      let st1 := { st with
        dataPacketCurrentOffset := st.dataPacketCurrentOffset + st.dataPacketSize }
      match parsePkt packetData with
      | none => (st1, Status.ERROR_END_OF_STREAM)
      | some [] => (st1, Status.ERROR_END_OF_STREAM)
      | some (p :: ps) => (processPayloads st1 (p :: ps), Status.OK)

/-- `AsfExtractor::read_l`: pop the head of the track's queue if any,
else call `readPacket` and retry while it returns `OK`.  `fuel` bounds
the number of loop iterations; `none` means the bound was reached
before the loop exited (the source loop has no such bound). -/
def read_l (fuel : Nat) (readAt : Nat → Nat → Option (List Nat))
    (parsePkt : List Nat → Option (List Payload)) (st : ExtState) (tIdx : Nat) :
    Option (ExtState × Status × Option MBuf) :=
  match fuel with
  | 0 => none
  | fuel + 1 =>
    match st.tracks.get? tIdx with
    | none => some (st, Status.OK, none)
    | some track =>
      match track.bufferQueue with
      | b :: rest =>
        some ({ st with tracks := st.tracks.set tIdx { track with bufferQueue := rest } },
              Status.OK, some b)
      | [] =>
        let r := readPacket readAt parsePkt st
        if r.2 = Status.OK then read_l fuel readAt parsePkt r.1 tIdx
        else some (r.1, r.2, none)

/-- The `switch (mode)` of `AsfExtractor::seek_l`: `nextSync` is set
only for `SEEK_NEXT_SYNC`. -/
def seekModeNextSync : SeekMode → Bool
  | SeekMode.SEEK_NEXT_SYNC => true
  | _ => false

/-- The flush loop of `AsfExtractor::seek_l`: walk all tracks dropping
`bufferActive` and clearing the queue; mark `seekCompleted` on every
track other than the originating one (`temp != track`, i.e. position
`≠ origin`).  The first argument after `origin` is the position of the
head of the remaining chain. -/
def flushLoop (origin : Nat) : Nat → List Track → List Track
  | _, [] => []
  | i, tr :: rest =>
    { tr with
      bufferActive := none
      bufferQueue := []
      seekCompleted := if i ≠ origin then true else tr.seekCompleted }
      :: flushLoop origin (i + 1) rest

/-- `SCALE_100_NANOSEC_TO_USEC` (header enum). -/
def SCALE_100_NANOSEC_TO_USEC : Int := 10

/-- `AsfExtractor::seek_l` on the track at position `tIdx`.
`parserSeek timeIn100ns nextSync` models `AsfStreamParser::seek`
(`some (packetNumber, targetTime)` on success, `none` on failure).
The computed `targetSampleTimeUs` is dead in the source (never set on a
buffer) and is omitted.  The `none` track branch is unreachable from
`read`, which only calls `seek_l` with an existing track. -/
def seek_l (parserSeek : Int → Bool → Option (Nat × Nat)) (st : ExtState)
    (tIdx : Nat) (options : ReadOptions) : ExtState × Status :=
  match st.tracks.get? tIdx with
  | none => (st, Status.OK)
  | some track =>
    if track.seekCompleted then
      -- seeking is completed through a different track
      ({ st with tracks := st.tracks.set tIdx { track with seekCompleted := false } },
       Status.OK)
    else
      match options.seekTo with
      | none => (st, Status.OK)
      | some (seekTimeUs, mode) =>
        let nextSync := seekModeNextSync mode
        match parserSeek (seekTimeUs * SCALE_100_NANOSEC_TO_USEC) nextSync with
        | none => (st, Status.ERROR_END_OF_STREAM)
        | some (packetNumber, _targetTime) =>
          ({ st with
             dataPacketCurrentOffset :=
               st.dataPacketBeginOffset + packetNumber * st.dataPacketSize,
             tracks := flushLoop tIdx 0 st.tracks },
           Status.OK)

/-- `AsfExtractor::read`: resolve the track by index (`BAD_VALUE` when
the walk returns `NULL`), run `seek_l` when options are present, then
`read_l`.  When the walk succeeds the matched node's position is
`trackIndex.toNat` (a negative index yields the first node, position
0). -/
def read (fuel : Nat) (parserSeek : Int → Bool → Option (Nat × Nat))
    (readAt : Nat → Nat → Option (List Nat))
    (parsePkt : List Nat → Option (List Payload)) (st : ExtState)
    (trackIndex : Int) (options : Option ReadOptions) :
    Option (ExtState × Status × Option MBuf) :=
  match getTrackByTrackIndex st.tracks trackIndex with
  | none => some (st, Status.BAD_VALUE, none)
  | some _ =>
    let tIdx := trackIndex.toNat
    match options with
    | some opts =>
      let r := seek_l parserSeek st tIdx opts
      if r.2 ≠ Status.OK then some (r.1, r.2, none)
      else read_l fuel readAt parsePkt r.1 tIdx
    | none => read_l fuel readAt parsePkt st tIdx

/-- `AsfExtractor::getTrackMetaData` on an initialized extractor:
`none` models the `NULL` return for an unknown index; for a known
index the track's metadata object is returned (its contents are not
modelled, see `Track`). -/
def getTrackMetaData (st : ExtState) (index : Nat) : Option Unit :=
  match getTrackByTrackIndex st.tracks (index : Int) with
  | none => none
  | some _ => some ()

/-- `AsfExtractor::getTrack` on an initialized extractor: `NULL` for an
unknown index; otherwise the track is activated (`skipTrack = false`)
and a source bound to the index is returned (modelled by the index). -/
def getTrack (st : ExtState) (index : Nat) : ExtState × Option Nat :=
  match getTrackByTrackIndex st.tracks (index : Int) with
  | none => (st, none)
  | some track =>
    ({ st with tracks := st.tracks.set index { track with skipTrack := false } },
     some index)

/-- Modelled from the spec: `AsfStreamParser::seek` when no seek index
was loaded (`seekable = false` / "index absent").  The spec's Seek
Index section says absence of the index "means seeking is unsupported
and all seek requests are rejected", i.e. the time-to-packet query
(`timeToPacket -> ... | notFound`) never succeeds.
(`AsfStreamParser.cpp` is not part of the sources under `src/`.) -/
def noIndexSeek : Int → Bool → Option (Nat × Nat) :=
  fun _ _ => none

/-! ## Fragmented-object scenarios

`mkFrags stream L time kf off chunks` is the payload-entry sequence of
one media object of length `L` split into the given data chunks at
consecutive offsets starting at `off` (offset 0 for a whole object's
fragment sequence): the claims' "payloads with offsets `0, o2, …, on`
whose offsets plus lengths sum to `objectLength`, in strictly
increasing offset order". -/

def mkFrags (stream L time : Nat) (kf : Bool) : Nat → List (List Nat) → List Payload
  | _, [] => []
  | off, c :: cs =>
    { streamNumber := stream, mediaObjectLength := L, payloadSize := c.length,
      offsetIntoMediaObject := off, presentationTime := time, keyframe := kf,
      payloadData := c } :: mkFrags stream L time kf (off + c.length) cs

/-- The per-fragment zero-copy views an encrypted track receives: one
view of the shared allocation per chunk, with logical range equal to
that fragment's `[offset, offset + length)`. -/
def fragViews (buf : MBuf) : Nat → List (List Nat) → List MBuf
  | _, [] => []
  | off, c :: cs =>
    { buf with rangeOffset := off, rangeLength := c.length }
      :: fragViews buf (off + c.length) cs

/-! ## Concrete fixtures used by witnesses and counterexamples -/

/-- A non-encrypted, activated track carrying stream 1. -/
def sampleTrack : Track :=
  { streamNumber := 1, encrypted := false, skipTrack := false,
    seekCompleted := false, bufferActive := none, bufferQueue := [] }

/-- A second activated track carrying stream 2. -/
def sampleTrack2 : Track :=
  { streamNumber := 2, encrypted := false, skipTrack := false,
    seekCompleted := false, bufferActive := none, bufferQueue := [] }

/-- An encrypted, activated track carrying stream 1. -/
def sampleTrackEnc : Track :=
  { streamNumber := 1, encrypted := true, skipTrack := false,
    seekCompleted := false, bufferActive := none, bufferQueue := [] }

/-- An initialized two-track extractor state with a three-packet data
region of packet size 1 starting at offset 100. -/
def sampleState : ExtState :=
  { tracks := [sampleTrack, sampleTrack2], heap := [],
    dataPacketBeginOffset := 100, dataPacketEndOffset := 103,
    dataPacketCurrentOffset := 100, dataPacketSize := 1 }

/-- Single-track variant of `sampleState`. -/
def sampleState1 : ExtState :=
  { tracks := [sampleTrack], heap := [],
    dataPacketBeginOffset := 100, dataPacketEndOffset := 103,
    dataPacketCurrentOffset := 100, dataPacketSize := 1 }

/-- Single-track variant of `sampleState` with an encrypted track. -/
def sampleStateEnc : ExtState :=
  { tracks := [sampleTrackEnc], heap := [],
    dataPacketBeginOffset := 100, dataPacketEndOffset := 103,
    dataPacketCurrentOffset := 100, dataPacketSize := 1 }

/-- A one-payload whole object for stream 1. -/
def samplePayload : Payload :=
  { streamNumber := 1, mediaObjectLength := 1, payloadSize := 1,
    offsetIntoMediaObject := 0, presentationTime := 5, keyframe := true,
    payloadData := [42] }

/-- A byte source for `sampleState`'s packet region whose first packet
is the byte `[0]` and whose second packet is the byte `[7]`. -/
def sampleReadAt : Nat → Nat → Option (List Nat) :=
  fun off n =>
    if off = 100 ∧ n = 1 then some [0]
    else if off = 101 ∧ n = 1 then some [7]
    else none

/-- A packet decoder that rejects the packet `[0]` as malformed and
decodes the packet `[7]` into one whole-object payload for stream 1. -/
def sampleParse : List Nat → Option (List Payload) :=
  fun bytes =>
    if bytes = [0] then none
    else if bytes = [7] then some [samplePayload]
    else none

/-- A parser seek function that resolves every request to packet 2 at
media time 70000000 (in 100ns units). -/
def sampleSeek : Int → Bool → Option (Nat × Nat) :=
  fun _ _ => some (2, 70000000)

/-- A seek request to 5 seconds, previous-sync mode. -/
def sampleSeekOptions : ReadOptions :=
  { seekTo := some (5000000, SeekMode.SEEK_PREVIOUS_SYNC) }

/-- Options carrying no seek request. -/
def sampleNoSeekOptions : ReadOptions :=
  { seekTo := none }

/-- `sampleTrack` with its "seek satisfied by another track" mark set. -/
def sampleTrackMarked : Track :=
  { streamNumber := 1, encrypted := false, skipTrack := false,
    seekCompleted := true, bufferActive := none, bufferQueue := [] }

/-- Single-track state whose track is marked `seekCompleted`. -/
def sampleStateMarked : ExtState :=
  { tracks := [sampleTrackMarked], heap := [],
    dataPacketBeginOffset := 100, dataPacketEndOffset := 103,
    dataPacketCurrentOffset := 100, dataPacketSize := 1 }

/-- A stream-1 audio descriptor. -/
def sampleAudioInfo : AudioStreamInfo :=
  { streamNumber := 1, encryptedContentFlag := false }

/-- A stream-2 video descriptor. -/
def sampleVideoInfo : VideoStreamInfo :=
  { streamNumber := 2, encryptedContentFlag := false }

/-! ## Helper lemmas -/

theorem getTrackByTrackIndex_eq_none (tracks : List Track) (i : Int)
    (h : (tracks.length : Int) ≤ i) : getTrackByTrackIndex tracks i = none := by
  induction tracks generalizing i with
  | nil =>
    unfold getTrackByTrackIndex
    split
    · rfl
    · rfl
  | cons t rest ih =>
    unfold getTrackByTrackIndex
    have hpos : i > 0 := by
      simp only [List.length_cons] at h
      omega
    rw [if_pos hpos]
    exact ih (i - 1) (by simp only [List.length_cons] at h; omega)

theorem flushLoop_get (origin : Nat) (l : List Track) :
    ∀ (i j : Nat),
      (flushLoop origin i l).get? j = (l.get? j).map (fun tr =>
        { tr with
          bufferActive := none
          bufferQueue := []
          seekCompleted := if i + j ≠ origin then true else tr.seekCompleted }) := by
  induction l with
  | nil => intro i j; simp [flushLoop]
  | cons t rest ih =>
    intro i j
    cases j with
    | zero => simp [flushLoop]
    | succ j =>
      have harith : i + 1 + j = i + (j + 1) := by omega
      simp only [flushLoop, List.get?_cons_succ, ih (i + 1) j, harith]

theorem findTrackIdx_set (l : List Track) (s : Nat) (i : Nat) (t t' : Track) :
    ∀ acc, l.get? i = some t → t'.streamNumber = t.streamNumber →
      findTrackIdx (l.set i t') s acc = findTrackIdx l s acc := by
  induction l generalizing i with
  | nil => intro acc h _; simp at h
  | cons a rest ih =>
    intro acc h hs
    cases i with
    | zero =>
      simp only [List.get?_cons_zero, Option.some_inj] at h
      subst h
      simp [List.set, findTrackIdx, hs]
    | succ i =>
      simp only [List.get?_cons_succ] at h
      simp only [List.set, findTrackIdx]
      split
      · rfl
      · exact ih i (acc + 1) h hs

theorem getTrackByStreamNumber_set (l : List Track) (s : Nat) (i : Nat)
    (t t' : Track) (h : l.get? i = some t) (hs : t'.streamNumber = t.streamNumber) :
    getTrackByStreamNumber (l.set i t') s = getTrackByStreamNumber l s :=
  findTrackIdx_set l s i t t' 0 h hs

theorem get?_lt_length {α : Type} (l : List α) (i : Nat) (a : α)
    (h : l.get? i = some a) : i < l.length := by
  by_contra hc
  rw [List.get?_eq_none.mpr (by omega)] at h
  exact Option.noConfusion h

theorem get?_set_self {α : Type} (l : List α) (i : Nat) (a : α)
    (h : i < l.length) : (l.set i a).get? i = some a := by
  rw [List.get?_eq_getElem?]
  exact List.getElem?_set_eq_of_lt a h

theorem get?_concat_self {α : Type} (l : List α) (a : α) :
    (l ++ [a]).get? l.length = some a := by
  induction l with
  | nil => rfl
  | cons x xs ih => simp [ih]

theorem set_concat_self {α : Type} (l : List α) (a b : α) :
    (l ++ [a]).set l.length b = l ++ [b] := by
  induction l with
  | nil => rfl
  | cons x xs ih => simp [List.set, ih]

theorem sum_len_pos (cs : List (List Nat)) (hne : cs ≠ [])
    (hmem : ∀ c ∈ cs, c ≠ []) : 0 < (cs.map List.length).sum := by
  cases cs with
  | nil => exact absurd rfl hne
  | cons c cs =>
    have hc : c ≠ [] := hmem c (List.mem_cons_self c cs)
    have : 0 < c.length := List.length_pos.mpr hc
    simp only [List.map_cons, List.sum_cons]
    omega

theorem drop_append_len {α : Type} (l l' : List α) (n : Nat) :
    (l ++ l').drop (l.length + n) = l'.drop n := by
  rw [List.drop_append]

theorem writeBytes_at_split (pre post src : List Nat) :
    writeBytes (pre ++ post) pre.length src = pre ++ src ++ post.drop src.length := by
  unfold writeBytes
  rw [List.take_left, drop_append_len]

/-- `processPayload` only touches the track list and the heap: the
packet-region fields are preserved. -/
theorem processPayload_packetRegion (st : ExtState) (p : Payload) :
    (processPayload st p).dataPacketBeginOffset = st.dataPacketBeginOffset
    ∧ (processPayload st p).dataPacketEndOffset = st.dataPacketEndOffset
    ∧ (processPayload st p).dataPacketCurrentOffset = st.dataPacketCurrentOffset
    ∧ (processPayload st p).dataPacketSize = st.dataPacketSize := by
  unfold processPayload
  repeat' split
  all_goals simp

theorem processPayloads_packetRegion (payloads : List Payload) (st : ExtState) :
    (processPayloads st payloads).dataPacketBeginOffset = st.dataPacketBeginOffset
    ∧ (processPayloads st payloads).dataPacketEndOffset = st.dataPacketEndOffset
    ∧ (processPayloads st payloads).dataPacketCurrentOffset = st.dataPacketCurrentOffset
    ∧ (processPayloads st payloads).dataPacketSize = st.dataPacketSize := by
  induction payloads generalizing st with
  | nil => exact ⟨rfl, rfl, rfl, rfl⟩
  | cons p ps ih =>
    have h1 := processPayload_packetRegion st p
    have h2 := ih (processPayload st p)
    simp only [processPayloads, List.foldl_cons] at *
    exact ⟨h2.1.trans h1.1, h2.2.1.trans h1.2.1,
           h2.2.2.1.trans h1.2.2.1, h2.2.2.2.trans h1.2.2.2⟩

/-! ## Claim C1 -/

/-- C1 counterexample: with one audio descriptor and one video
descriptor from the Container Parser, `countTracks()` after successful
initialization is 1, not 1 + 1 — `setupTracks` discards the audio
descriptor chain (`audioInfo = NULL; // "Audio is temporarily
disabled"`), so the claimed equality with audio + video descriptor
counts fails. -/
theorem countTracks_audio_plus_video_counterexample :
    countTracks (setupTracks [sampleAudioInfo] [sampleVideoInfo])
      ≠ [sampleAudioInfo].length + [sampleVideoInfo].length := by
  simp [countTracks, setupTracks, countTracksLoop_eq_length,
        setupTracksLoop_nil_length]

/-- C1 (amended): for every descriptor list pair returned by the
Container Parser, `countTracks()` after successful initialization
equals the number of video descriptors alone (audio descriptors are
ignored by `setupTracks`).  Stability across repeated calls is
definitional here: `countTracks` only reads the track list, which
`initialize()` builds once. -/
theorem countTracks_eq_video_descriptors (as : List AudioStreamInfo)
    (vs : List VideoStreamInfo) :
    countTracks (setupTracks as vs) = vs.length := by
  simp [countTracks, setupTracks, countTracksLoop_eq_length,
        setupTracksLoop_nil_length]

/-! ## Claim C2 -/

/-- C2 counterexample: on a container with no loaded seek index, a seek
request is answered with `ERROR_END_OF_STREAM` — the very status the
extractor uses for the end-of-stream outcome — and not with a distinct
"seeking unsupported" status (the extractor's unsupported code,
`ERROR_UNSUPPORTED`, is never produced by `seek_l`).  So the claim's
"never reports a different error in place of the unsupported outcome"
fails at this input. -/
theorem seek_noindex_status_counterexample :
    (seek_l noIndexSeek sampleState1 0 sampleSeekOptions).2
        = Status.ERROR_END_OF_STREAM
    ∧ Status.ERROR_END_OF_STREAM ≠ Status.ERROR_UNSUPPORTED := by
  exact ⟨by decide, by decide⟩

/-- C2 (amended): for every seek request issued on a container for
which no seek index was loaded, `seek_l` returns
`ERROR_END_OF_STREAM` — never `OK` (no silent no-op), but also not a
dedicated "unsupported" status — provided the track's duplicate-seek
mark is clear (it can never have been set, since no seek ever succeeds
without an index).  The extractor state is left unchanged. -/
theorem seek_noindex_rejected (st : ExtState) (tIdx : Nat) (track : Track)
    (opts : ReadOptions) (s : Int × SeekMode)
    (ht : st.tracks.get? tIdx = some track)
    (hsc : track.seekCompleted = false)
    (hopt : opts.seekTo = some s) :
    seek_l noIndexSeek st tIdx opts = (st, Status.ERROR_END_OF_STREAM) := by
  obtain ⟨t, m⟩ := s
  unfold seek_l
  rw [ht]
  simp [hsc, hopt, noIndexSeek]

/-- C2 witness. -/
theorem seek_noindex_rejected_witness :
    seek_l noIndexSeek sampleState1 0 sampleSeekOptions
      = (sampleState1, Status.ERROR_END_OF_STREAM) :=
  seek_noindex_rejected sampleState1 0 sampleTrack sampleSeekOptions
    (5000000, SeekMode.SEEK_PREVIOUS_SYNC) (by decide) (by decide) (by decide)

/-! ## Claim C3 -/

/-- C3 counterexample: the first packet of `sampleState1`'s region is
rejected as malformed by `sampleParse`, and the second packet decodes
to a payload for the track being read — yet the pull terminates with
`ERROR_END_OF_STREAM` and no buffer instead of continuing with the
next packet.  (The cursor does advance past the bad packet, so the
*next* pull would resume after it, but the current read aborts.) -/
theorem malformed_packet_aborts_read_counterexample :
    read_l 5 sampleReadAt sampleParse sampleState1 0 =
      some ({ sampleState1 with dataPacketCurrentOffset := 101 },
            Status.ERROR_END_OF_STREAM, none)
    ∧ sampleParse [7] = some [samplePayload] := by
  exact ⟨by decide, by decide⟩

/-- C3 (amended): a packet whose structural decoding fails during
steady-state demuxing is dropped in the sense that the cursor has
already advanced past it, but the failure is *not* absorbed by the
pull loop: `readPacket` reports `ERROR_END_OF_STREAM` and `read_l`
terminates the current read with that error and no buffer (a
subsequent read resumes at the next packet thanks to the advanced
cursor). -/
theorem malformed_packet_dropped_read_aborts
    (readAt : Nat → Nat → Option (List Nat))
    (parsePkt : List Nat → Option (List Payload)) (st : ExtState)
    (bytes : List Nat) (tIdx : Nat) (track : Track) (fuel : Nat)
    (hin : st.dataPacketCurrentOffset + st.dataPacketSize ≤ st.dataPacketEndOffset)
    (hread : readAt st.dataPacketCurrentOffset st.dataPacketSize = some bytes)
    (hparse : parsePkt bytes = none)
    (ht : st.tracks.get? tIdx = some track)
    (hq : track.bufferQueue = []) :
    readPacket readAt parsePkt st =
      ({ st with dataPacketCurrentOffset :=
           st.dataPacketCurrentOffset + st.dataPacketSize },
       Status.ERROR_END_OF_STREAM)
    ∧ read_l (fuel + 1) readAt parsePkt st tIdx =
      some ({ st with dataPacketCurrentOffset :=
                st.dataPacketCurrentOffset + st.dataPacketSize },
            Status.ERROR_END_OF_STREAM, none) := by
  have hpkt : readPacket readAt parsePkt st =
      ({ st with dataPacketCurrentOffset :=
           st.dataPacketCurrentOffset + st.dataPacketSize },
       Status.ERROR_END_OF_STREAM) := by
    unfold readPacket
    rw [if_neg (by omega), hread]
    simp only [hparse]
  refine ⟨hpkt, ?_⟩
  simp only [read_l, ht, hq, hpkt]
  simp

/-- C3 witness. -/
theorem malformed_packet_dropped_read_aborts_witness :
    readPacket sampleReadAt sampleParse sampleState1 =
      ({ sampleState1 with dataPacketCurrentOffset :=
           sampleState1.dataPacketCurrentOffset + sampleState1.dataPacketSize },
       Status.ERROR_END_OF_STREAM)
    ∧ read_l (0 + 1) sampleReadAt sampleParse sampleState1 0 =
      some ({ sampleState1 with dataPacketCurrentOffset :=
                sampleState1.dataPacketCurrentOffset + sampleState1.dataPacketSize },
            Status.ERROR_END_OF_STREAM, none) :=
  malformed_packet_dropped_read_aborts sampleReadAt sampleParse sampleState1
    [0] 0 sampleTrack 0 (by decide) (by decide) (by decide) (by decide) (by decide)

/-! ## Claim C5 -/

/-- C5: one `readPacket` call on an initialized packet region (a) hits
end-of-stream with the cursor unchanged when one more packet would
cross the region end, (b) likewise when the underlying read returns
fewer bytes than one packet, and otherwise (c) advances the cursor by
exactly one packet size before the payload list is processed; in all
cases the cursor moves by zero or one whole packet and
`begin ≤ cursor ≤ end` is preserved. -/
theorem readPacket_cursor_invariant
    (readAt : Nat → Nat → Option (List Nat))
    (parsePkt : List Nat → Option (List Payload)) (st : ExtState)
    (hb : st.dataPacketBeginOffset ≤ st.dataPacketCurrentOffset)
    (he : st.dataPacketCurrentOffset ≤ st.dataPacketEndOffset) :
    (st.dataPacketEndOffset < st.dataPacketCurrentOffset + st.dataPacketSize →
      readPacket readAt parsePkt st = (st, Status.ERROR_END_OF_STREAM))
    ∧ (readAt st.dataPacketCurrentOffset st.dataPacketSize = none →
      readPacket readAt parsePkt st = (st, Status.ERROR_END_OF_STREAM))
    ∧ (∀ bytes,
      st.dataPacketCurrentOffset + st.dataPacketSize ≤ st.dataPacketEndOffset →
      readAt st.dataPacketCurrentOffset st.dataPacketSize = some bytes →
      (readPacket readAt parsePkt st).1.dataPacketCurrentOffset
        = st.dataPacketCurrentOffset + st.dataPacketSize)
    ∧ ((readPacket readAt parsePkt st).1.dataPacketCurrentOffset
        = st.dataPacketCurrentOffset
      ∨ (readPacket readAt parsePkt st).1.dataPacketCurrentOffset
        = st.dataPacketCurrentOffset + st.dataPacketSize)
    ∧ st.dataPacketBeginOffset
        ≤ (readPacket readAt parsePkt st).1.dataPacketCurrentOffset
    ∧ (readPacket readAt parsePkt st).1.dataPacketCurrentOffset
        ≤ st.dataPacketEndOffset := by
  by_cases hcross :
      st.dataPacketEndOffset < st.dataPacketCurrentOffset + st.dataPacketSize
  · have heq : readPacket readAt parsePkt st = (st, Status.ERROR_END_OF_STREAM) := by
      unfold readPacket
      rw [if_pos (by omega)]
    refine ⟨fun _ => heq, fun _ => heq, fun bytes h1 _ => absurd h1 (by omega),
            ?_, ?_, ?_⟩
    · rw [heq]; left; rfl
    · rw [heq]; exact hb
    · rw [heq]; exact he
  · cases hra : readAt st.dataPacketCurrentOffset st.dataPacketSize with
    | none =>
      have heq : readPacket readAt parsePkt st = (st, Status.ERROR_END_OF_STREAM) := by
        unfold readPacket
        rw [if_neg (by omega), hra]
      refine ⟨fun h => absurd h hcross, fun _ => heq, ?_, ?_, ?_, ?_⟩
      · intro bytes _ h2
        exact Option.noConfusion h2
      · rw [heq]; left; rfl
      · rw [heq]; exact hb
      · rw [heq]; exact he
    | some bytes =>
      have hcur : (readPacket readAt parsePkt st).1.dataPacketCurrentOffset
          = st.dataPacketCurrentOffset + st.dataPacketSize := by
        unfold readPacket
        rw [if_neg (by omega), hra]
        rcases hp : parsePkt bytes with _ | ⟨_ | ⟨p, ps⟩⟩
        · simp only [hp]
        · simp only [hp]
        · simp only [hp]
          exact (processPayloads_packetRegion (p :: ps) _).2.2.1
      refine ⟨fun h => absurd h hcross, ?_, fun _ _ _ => hcur, Or.inr hcur, ?_, ?_⟩
      · intro h
        exact Option.noConfusion h
      · rw [hcur]; omega
      · rw [hcur]; omega

/-- C5 witness. -/
theorem readPacket_cursor_invariant_witness :
    sampleState1.dataPacketBeginOffset ≤ sampleState1.dataPacketCurrentOffset
    ∧ sampleState1.dataPacketCurrentOffset ≤ sampleState1.dataPacketEndOffset
    ∧ ((readPacket sampleReadAt sampleParse sampleState1).1.dataPacketCurrentOffset
        = sampleState1.dataPacketCurrentOffset
      ∨ (readPacket sampleReadAt sampleParse sampleState1).1.dataPacketCurrentOffset
        = sampleState1.dataPacketCurrentOffset + sampleState1.dataPacketSize) :=
  ⟨by decide, by decide,
   (readPacket_cursor_invariant sampleReadAt sampleParse sampleState1
     (by decide) (by decide)).2.2.2.1⟩

/-! ## Claim C4 -/

/-- C4: a successful seek originating on the track at position `a`
returns `OK`; afterwards the packet cursor equals
`beginOffset + packetNumber * packetSize`; every track's queue is
empty and its in-progress buffer cleared; every track other than `a`
carries the "seek satisfied" mark while `a`'s mark stays clear; and a
subsequent seek request arriving on a marked track `b ≠ a` merely
clears `b`'s mark and returns `OK` — no time translation (the parser
seek function of that second call is arbitrary), no cursor movement,
no queue mutation. -/
theorem seek_success_postconditions
    (ps : Int → Bool → Option (Nat × Nat)) (st : ExtState) (a : Nat)
    (tA : Track) (opts : ReadOptions) (t : Int) (m : SeekMode) (pn tt : Nat)
    (hA : st.tracks.get? a = some tA)
    (hnc : tA.seekCompleted = false)
    (hopt : opts.seekTo = some (t, m))
    (hps : ps (t * SCALE_100_NANOSEC_TO_USEC) (seekModeNextSync m) = some (pn, tt)) :
    (seek_l ps st a opts).2 = Status.OK
    ∧ (seek_l ps st a opts).1.dataPacketCurrentOffset
        = st.dataPacketBeginOffset + pn * st.dataPacketSize
    ∧ (∀ i t', (seek_l ps st a opts).1.tracks.get? i = some t' →
        t'.bufferActive = none ∧ t'.bufferQueue = []
        ∧ (i ≠ a → t'.seekCompleted = true)
        ∧ (i = a → t'.seekCompleted = false))
    ∧ (∀ (ps2 : Int → Bool → Option (Nat × Nat)) (opts2 : ReadOptions)
        (b : Nat) (tB : Track),
        b ≠ a → (seek_l ps st a opts).1.tracks.get? b = some tB →
        seek_l ps2 (seek_l ps st a opts).1 b opts2 =
          ({ (seek_l ps st a opts).1 with
             tracks := (seek_l ps st a opts).1.tracks.set b { tB with seekCompleted := false } },
           Status.OK)) := by
  have hseek : seek_l ps st a opts =
      ({ st with
         dataPacketCurrentOffset := st.dataPacketBeginOffset + pn * st.dataPacketSize
         tracks := flushLoop a 0 st.tracks }, Status.OK) := by
    unfold seek_l
    rw [hA]
    simp [hnc, hopt, hps]
  have hflush : ∀ i t', (seek_l ps st a opts).1.tracks.get? i = some t' →
      t'.bufferActive = none ∧ t'.bufferQueue = []
      ∧ (i ≠ a → t'.seekCompleted = true)
      ∧ (i = a → t'.seekCompleted = false) := by
    intro i t' h
    rw [hseek] at h
    simp only at h
    rw [flushLoop_get] at h
    obtain ⟨tr, htr, hf⟩ := Option.map_eq_some'.mp h
    subst hf
    refine ⟨rfl, rfl, fun hne => ?_, fun heq => ?_⟩
    · simp [Nat.zero_add, hne]
    · subst heq
      rw [hA] at htr
      cases htr
      simp [hnc]
  refine ⟨by rw [hseek], by rw [hseek], hflush, ?_⟩
  intro ps2 opts2 b tB hbne hB
  have htB : tB.seekCompleted = true := ((hflush b tB hB).2.2.1) hbne
  generalize hst : (seek_l ps st a opts).1 = st' at hB ⊢
  unfold seek_l
  rw [hB]
  simp [htB]

/-- C4 witness (two tracks, seek on track 0, then a seek arriving on
marked track 1). -/
theorem seek_success_postconditions_witness :
    (seek_l sampleSeek sampleState 0 sampleSeekOptions).2 = Status.OK
    ∧ (seek_l sampleSeek sampleState 0 sampleSeekOptions).1.dataPacketCurrentOffset
        = sampleState.dataPacketBeginOffset + 2 * sampleState.dataPacketSize
    ∧ (∀ i t', (seek_l sampleSeek sampleState 0 sampleSeekOptions).1.tracks.get? i = some t' →
        t'.bufferActive = none ∧ t'.bufferQueue = []
        ∧ (i ≠ 0 → t'.seekCompleted = true)
        ∧ (i = 0 → t'.seekCompleted = false))
    ∧ (∀ (ps2 : Int → Bool → Option (Nat × Nat)) (opts2 : ReadOptions)
        (b : Nat) (tB : Track),
        b ≠ 0 → (seek_l sampleSeek sampleState 0 sampleSeekOptions).1.tracks.get? b = some tB →
        seek_l ps2 (seek_l sampleSeek sampleState 0 sampleSeekOptions).1 b opts2 =
          ({ (seek_l sampleSeek sampleState 0 sampleSeekOptions).1 with
             tracks := (seek_l sampleSeek sampleState 0 sampleSeekOptions).1.tracks.set b { tB with seekCompleted := false } },
           Status.OK)) :=
  seek_success_postconditions sampleSeek sampleState 0 sampleTrack
    sampleSeekOptions 5000000 SeekMode.SEEK_PREVIOUS_SYNC 2 70000000
    (by decide) (by decide) (by decide) (by decide)

/-! ## Claim C9 -/

/-- C9: the "seek satisfied" mark is checked before the options are
examined for a seek target, so (a) on a marked track, `seek_l` under
*any* options — seek request or not — clears the mark and returns `OK`
touching nothing else (cursor, heap and every queue unchanged), and
(b) on an unmarked track, options with no seek request leave the whole
state unchanged and return `OK`. -/
theorem seek_mark_consumed_before_target_check
    (ps : Int → Bool → Option (Nat × Nat)) (st : ExtState) (tIdx : Nat)
    (track : Track) (opts : ReadOptions)
    (ht : st.tracks.get? tIdx = some track) :
    (track.seekCompleted = true →
      seek_l ps st tIdx opts =
        ({ st with tracks := st.tracks.set tIdx { track with seekCompleted := false } },
         Status.OK))
    ∧ (track.seekCompleted = false → opts.seekTo = none →
      seek_l ps st tIdx opts = (st, Status.OK)) := by
  constructor
  · intro hm
    unfold seek_l
    rw [ht]
    simp [hm]
  · intro hm hopt
    unfold seek_l
    rw [ht]
    simp [hm, hopt]

/-- C9 witness (a marked track consumes the mark even though the
options carry a seek request). -/
theorem seek_mark_consumed_before_target_check_witness :
    (sampleTrackMarked.seekCompleted = true →
      seek_l sampleSeek sampleStateMarked 0 sampleSeekOptions =
        ({ sampleStateMarked with
           tracks := sampleStateMarked.tracks.set 0 { sampleTrackMarked with seekCompleted := false } },
         Status.OK))
    ∧ (sampleTrackMarked.seekCompleted = false → sampleSeekOptions.seekTo = none →
      seek_l sampleSeek sampleStateMarked 0 sampleSeekOptions =
        (sampleStateMarked, Status.OK)) :=
  seek_mark_consumed_before_target_check sampleSeek sampleStateMarked 0
    sampleTrackMarked sampleSeekOptions (by decide)

/-! ## Fragment-reassembly lemmas (for C6 and C7) -/

theorem writeBytes_fresh (size : Nat) (src : List Nat) :
    writeBytes (List.replicate size (0 : Nat)) 0 src
      = src ++ List.replicate (size - src.length) 0 := by
  unfold writeBytes
  simp [List.drop_replicate]

theorem fragViews_length (buf : MBuf) (off : Nat) (cs : List (List Nat)) :
    (fragViews buf off cs).length = cs.length := by
  induction cs generalizing off with
  | nil => simp [fragViews]
  | cons c cs ih => simp [fragViews, ih]

theorem fragViews_allocId (buf : MBuf) (off : Nat) (cs : List (List Nat)) :
    ∀ b ∈ fragViews buf off cs, b.allocId = buf.allocId := by
  induction cs generalizing off with
  | nil => intro b hb; simp [fragViews] at hb
  | cons c cs ih =>
    intro b hb
    simp only [fragViews, List.mem_cons] at hb
    rcases hb with h | h
    · subst h; rfl
    · exact ih (off + c.length) b h

/-- The middle/last-fragment loop on a *non-encrypted* track: starting
with an in-progress buffer whose allocation holds the already-written
prefix `pre`, processing the remaining fragments (consecutive offsets
from `pre.length`, lengths summing with `pre.length` to the object
length) writes each fragment at its offset, emits nothing until the
last fragment, and on the last fragment pushes the in-progress buffer
itself and clears the in-progress slot. -/
theorem processFrags_loop_plain (s L time : Nat) (kf : Bool) (tIdx : Nat) :
    ∀ (cs : List (List Nat)) (st : ExtState) (track : Track) (buf : MBuf)
      (pre post : List Nat),
      getTrackByStreamNumber st.tracks s = some tIdx →
      st.tracks.get? tIdx = some track →
      track.skipTrack = false →
      track.encrypted = false →
      track.bufferActive = some buf →
      st.heap.get? buf.allocId = some (pre ++ post) →
      cs ≠ [] → (∀ c ∈ cs, c ≠ []) →
      0 < pre.length →
      pre.length + (cs.map List.length).sum = L →
      processPayloads st (mkFrags s L time kf pre.length cs) =
        { st with
          tracks := st.tracks.set tIdx
            { track with
              bufferActive := none
              bufferQueue := track.bufferQueue ++ [buf] }
          heap := st.heap.set buf.allocId
            (pre ++ cs.flatten ++ post.drop cs.flatten.length) } := by
  intro cs
  induction cs with
  | nil =>
    intro st track buf pre post _ _ _ _ _ _ hne
    exact absurd rfl hne
  | cons c cs ih =>
    intro st track buf pre post hfind hget hskip henc hact hheap _ hmem hpre hsum
    have hc : c ≠ [] := hmem c (List.mem_cons_self c cs)
    have hclen : 0 < c.length := List.length_pos.mpr hc
    have hsum' : pre.length + (c.length + (cs.map List.length).sum) = L := by
      simpa using hsum
    have hw : heapWrite st.heap buf.allocId pre.length c
        = st.heap.set buf.allocId (pre ++ c ++ post.drop c.length) := by
      unfold heapWrite
      simp only [hheap]
      rw [writeBytes_at_split, List.append_assoc]
    by_cases hcs : cs = []
    · subst hcs
      have hlast : pre.length + c.length = L := by simpa using hsum
      simp only [mkFrags, processPayloads, List.foldl_cons, List.foldl_nil]
      unfold processPayload
      simp only [hfind, hget, hskip, Bool.false_eq_true, if_false]
      rw [if_neg (by omega)]
      simp only [hact, hw]
      rw [if_pos hlast]
      simp only [henc, Bool.false_eq_true, if_false]
      simp [List.append_assoc]
    · have hsumpos : 0 < (cs.map List.length).sum :=
        sum_len_pos cs hcs (fun x hx => hmem x (List.mem_cons_of_mem _ hx))
      have hstep : processPayload st
          { streamNumber := s, mediaObjectLength := L, payloadSize := c.length,
            offsetIntoMediaObject := pre.length, presentationTime := time,
            keyframe := kf, payloadData := c }
          = { st with heap := st.heap.set buf.allocId (pre ++ c ++ post.drop c.length) } := by
        unfold processPayload
        simp only [hfind, hget, hskip, Bool.false_eq_true, if_false]
        rw [if_neg (by omega)]
        simp only [hact, hw]
        rw [if_neg (by omega)]
        simp only [henc, Bool.false_eq_true, if_false]
      simp only [mkFrags, processPayloads, List.foldl_cons]
      have hgoal := ih
        { st with heap := st.heap.set buf.allocId (pre ++ c ++ post.drop c.length) }
        track buf (pre ++ c) (post.drop c.length)
        hfind hget hskip henc hact
        (by
          simp only
          rw [get?_set_self _ _ _ (get?_lt_length _ _ _ hheap)])
        hcs (fun x hx => hmem x (List.mem_cons_of_mem _ hx))
        (by simp [List.length_append]; omega)
        (by simp [List.length_append]; omega)
      rw [List.length_append] at hgoal
      change processPayloads (processPayload st _) _ = _
      rw [hstep, hgoal]
      simp only [List.set_set, List.flatten_cons, List.drop_drop, List.length_append,
                 List.append_assoc]

/-- Incomplete middle fragments on a non-encrypted track (fragments at
positive offsets whose lengths cannot complete the object) never touch
the track list: nothing is emitted and no track state changes. -/
theorem processFrags_noComplete (s L time : Nat) (kf : Bool) (tIdx : Nat) :
    ∀ (cs : List (List Nat)) (st : ExtState) (track : Track),
      getTrackByStreamNumber st.tracks s = some tIdx →
      st.tracks.get? tIdx = some track →
      track.encrypted = false →
      ∀ off, 0 < off → off + (cs.map List.length).sum < L →
      (processPayloads st (mkFrags s L time kf off cs)).tracks = st.tracks := by
  intro cs
  induction cs with
  | nil =>
    intro st track _ _ _ off _ _
    simp [mkFrags, processPayloads]
  | cons c cs ih =>
    intro st track hfind hget henc off hoff hlt
    have hlt' : off + (c.length + (cs.map List.length).sum) < L := by
      simpa using hlt
    have htr : (processPayload st
        { streamNumber := s, mediaObjectLength := L, payloadSize := c.length,
          offsetIntoMediaObject := off, presentationTime := time,
          keyframe := kf, payloadData := c }).tracks = st.tracks := by
      unfold processPayload
      simp only [hfind, hget]
      by_cases hsk : track.skipTrack
      · simp [hsk]
      · simp only [hsk, Bool.false_eq_true, if_false]
        rw [if_neg (by omega)]
        cases hact : track.bufferActive with
        | none => simp
        | some act =>
          simp only
          rw [if_neg (by omega)]
          simp only [henc, Bool.false_eq_true, if_false]
    simp only [mkFrags, processPayloads, List.foldl_cons]
    change (processPayloads (processPayload st _) _).tracks = _
    rw [ih (processPayload st _) track
      (by rw [htr]; exact hfind) (by rw [htr]; exact hget) henc
      (off + c.length) (by omega) (by omega), htr]

/-! ## Claim C6 -/

/-- C6: a fragmented object on a non-encrypted active track, split into
chunks `c1 :: rest` arriving at strictly increasing consecutive offsets
summing to `L`, produces (1) exactly one queued buffer — the
reassembled object with range `[0, L)` — with the in-progress slot
cleared and no other track touched, (2) content equal to the
concatenation of the fragments at their declared offsets, and (3) an
unchanged queue after every proper prefix of the fragments (emission
happens only after the last fragment); (4) a middle/last fragment
arriving with no in-progress buffer on its track is discarded and the
rest of the packet's payload list is still processed. -/
theorem fragmented_plain_single_emit (st : ExtState) (tIdx : Nat) (track : Track)
    (s L time : Nat) (kf : Bool) (c1 : List Nat) (rest : List (List Nat))
    (hfind : getTrackByStreamNumber st.tracks s = some tIdx)
    (hget : st.tracks.get? tIdx = some track)
    (hskip : track.skipTrack = false)
    (henc : track.encrypted = false)
    (hc1 : c1 ≠ []) (hrest : rest ≠ [])
    (hmem : ∀ c ∈ rest, c ≠ [])
    (hL : c1.length + (rest.map List.length).sum = L) :
    (processPayloads st (mkFrags s L time kf 0 (c1 :: rest))).tracks =
      st.tracks.set tIdx
        { track with
          bufferActive := none
          bufferQueue := track.bufferQueue ++ [objBuffer st.heap.length L time kf] }
    ∧ bufContent (processPayloads st (mkFrags s L time kf 0 (c1 :: rest)))
        (objBuffer st.heap.length L time kf) = (c1 :: rest).flatten
    ∧ (∀ k, k < (c1 :: rest).length →
        ((processPayloads st (mkFrags s L time kf 0 ((c1 :: rest).take k))).tracks.get?
            tIdx).map Track.bufferQueue = some track.bufferQueue)
    ∧ (∀ (st2 : ExtState) (p : Payload) (j : Nat) (t2 : Track) (ps2 : List Payload),
        getTrackByStreamNumber st2.tracks p.streamNumber = some j →
        st2.tracks.get? j = some t2 →
        t2.bufferActive = none →
        p.offsetIntoMediaObject ≠ 0 →
        p.mediaObjectLength ≠ p.payloadSize →
        processPayloads st2 (p :: ps2) = processPayloads st2 ps2) := by
  have hrestpos : 0 < (rest.map List.length).sum := sum_len_pos rest hrest hmem
  have hc1len : 0 < c1.length := List.length_pos.mpr hc1
  have htlen : tIdx < st.tracks.length := get?_lt_length _ _ _ hget
  have hfirst : ∀ (cs : List (List Nat)), processPayloads st
      (mkFrags s L time kf 0 (c1 :: cs))
      = processPayloads
        { st with
          heap := st.heap ++
            [c1 ++ List.replicate ((objBuffer st.heap.length L time kf).allocSize - c1.length) 0]
          tracks := st.tracks.set tIdx { track with bufferActive := some (objBuffer st.heap.length L time kf) } }
        (mkFrags s L time kf c1.length cs) := by
    intro cs
    simp only [mkFrags, processPayloads, List.foldl_cons, Nat.zero_add]
    congr 1
    unfold processPayload
    simp only [hfind, hget, hskip, Bool.false_eq_true, if_false]
    rw [if_pos (Or.inr trivial)]
    rw [if_neg (by omega)]
    simp only [henc, Bool.false_eq_true, if_false, allocObjBuffer]
    rw [writeBytes_fresh]
  have hfind1 : getTrackByStreamNumber
      (st.tracks.set tIdx { track with bufferActive := some (objBuffer st.heap.length L time kf) }) s
      = some tIdx :=
    (getTrackByStreamNumber_set st.tracks s tIdx track
      { track with bufferActive := some (objBuffer st.heap.length L time kf) }
      hget rfl).trans hfind
  have hget1 : (st.tracks.set tIdx
      { track with bufferActive := some (objBuffer st.heap.length L time kf) }).get? tIdx
      = some { track with bufferActive := some (objBuffer st.heap.length L time kf) } :=
    get?_set_self _ _ _ htlen
  have hmain : processPayloads st (mkFrags s L time kf 0 (c1 :: rest)) =
      { st with
        heap := st.heap ++
          [c1 ++ rest.flatten ++
            (List.replicate ((objBuffer st.heap.length L time kf).allocSize - c1.length) 0).drop
              rest.flatten.length]
        tracks := st.tracks.set tIdx
          { track with
            bufferActive := none
            bufferQueue := track.bufferQueue ++ [objBuffer st.heap.length L time kf] } } := by
    rw [hfirst rest]
    rw [processFrags_loop_plain s L time kf tIdx rest _
      { track with bufferActive := some (objBuffer st.heap.length L time kf) }
      (objBuffer st.heap.length L time kf) c1
      (List.replicate ((objBuffer st.heap.length L time kf).allocSize - c1.length) 0)
      hfind1 hget1 hskip henc rfl
      (by
        simp only
        rw [show (objBuffer st.heap.length L time kf).allocId = st.heap.length from rfl,
            get?_concat_self])
      hrest hmem hc1len hL]
    simp only [List.set_set]
    rw [show (objBuffer st.heap.length L time kf).allocId = st.heap.length from rfl,
        set_concat_self]
  refine ⟨by rw [hmain], ?_, ?_, ?_⟩
  · rw [hmain]
    unfold bufContent
    rw [show (objBuffer st.heap.length L time kf).allocId = st.heap.length from rfl]
    simp only [get?_concat_self, Option.getD_some]
    have hro : (objBuffer st.heap.length L time kf).rangeOffset = 0 := rfl
    have hrl : (objBuffer st.heap.length L time kf).rangeLength = L := rfl
    rw [hro, hrl, List.drop_zero]
    have hflen : (c1 ++ rest.flatten).length = L := by
      rw [List.length_append, List.length_flatten]
      omega
    rw [← hflen, List.take_left, List.flatten_cons]
  · intro k hk
    cases k with
    | zero =>
      simp only [List.take_zero, mkFrags, processPayloads, List.foldl_nil]
      rw [hget]
      rfl
    | succ j =>
      have hjlt : j < rest.length := by
        simp only [List.length_cons] at hk
        omega
      have hdropne : rest.drop j ≠ [] := by
        have := List.length_drop j rest
        intro hnil
        rw [hnil] at this
        simp at this
        omega
      have hdroppos : 0 < ((rest.drop j).map List.length).sum :=
        sum_len_pos _ hdropne (fun x hx => hmem x (List.drop_subset _ _ hx))
      have hsplit : ((rest.take j).map List.length).sum
          + ((rest.drop j).map List.length).sum = (rest.map List.length).sum := by
        rw [← List.sum_append, ← List.map_append, List.take_append_drop]
      have hbound : c1.length + ((rest.take j).map List.length).sum < L := by
        omega
      rw [List.take_succ_cons, hfirst (rest.take j)]
      rw [processFrags_noComplete s L time kf tIdx (rest.take j) _
        { track with bufferActive := some (objBuffer st.heap.length L time kf) }
        hfind1 hget1 henc c1.length hc1len hbound]
      simp only
      rw [hget1]
      rfl
  · intro st2 p j t2 ps2 hfind2 hget2 hact2 hoff2 hwhole2
    simp only [processPayloads, List.foldl_cons]
    have hstep2 : processPayload st2 p = st2 := by
      unfold processPayload
      simp only [hfind2, hget2]
      by_cases hsk : t2.skipTrack
      · simp [hsk]
      · simp only [hsk, Bool.false_eq_true, if_false]
        rw [if_neg (not_or.mpr ⟨hwhole2, hoff2⟩)]
        simp only [hact2]
    rw [hstep2]

/-- C6 witness (three one-byte fragments on a non-encrypted track). -/
theorem fragmented_plain_single_emit_witness :
    bufContent (processPayloads sampleState1 (mkFrags 1 3 5 true 0 [[10], [20], [30]]))
        (objBuffer sampleState1.heap.length 3 5 true) = [[10], [20], [30]].flatten
    ∧ (processPayloads sampleState1 (mkFrags 1 3 5 true 0 [[10], [20], [30]])).tracks =
      sampleState1.tracks.set 0
        { sampleTrack with
          bufferActive := none
          bufferQueue := sampleTrack.bufferQueue ++ [objBuffer sampleState1.heap.length 3 5 true] } :=
  have h := fragmented_plain_single_emit sampleState1 0 sampleTrack 1 3 5 true
    [10] [[20], [30]] (by decide) (by decide) (by decide) (by decide) (by decide)
    (by decide) (by decide) (by decide)
  ⟨h.2.1, h.1⟩

/-! ## Claim C7 -/

/-- The middle/last-fragment loop on an *encrypted* track: each middle
fragment pushes a zero-copy cloned view with that fragment's range, and
the last fragment pushes the in-progress buffer itself restricted to
the final fragment's range and clears the in-progress slot. -/
theorem processFrags_loop_enc (s L time : Nat) (kf : Bool) (tIdx : Nat) :
    ∀ (cs : List (List Nat)) (st : ExtState) (track : Track) (buf : MBuf)
      (pre post : List Nat),
      getTrackByStreamNumber st.tracks s = some tIdx →
      st.tracks.get? tIdx = some track →
      track.skipTrack = false →
      track.encrypted = true →
      track.bufferActive = some buf →
      st.heap.get? buf.allocId = some (pre ++ post) →
      cs ≠ [] → (∀ c ∈ cs, c ≠ []) →
      0 < pre.length →
      pre.length + (cs.map List.length).sum = L →
      processPayloads st (mkFrags s L time kf pre.length cs) =
        { st with
          tracks := st.tracks.set tIdx
            { track with
              bufferActive := none
              bufferQueue := track.bufferQueue ++ fragViews buf pre.length cs }
          heap := st.heap.set buf.allocId
            (pre ++ cs.flatten ++ post.drop cs.flatten.length) } := by
  intro cs
  induction cs with
  | nil =>
    intro st track buf pre post _ _ _ _ _ _ hne
    exact absurd rfl hne
  | cons c cs ih =>
    intro st track buf pre post hfind hget hskip henc hact hheap _ hmem hpre hsum
    have hc : c ≠ [] := hmem c (List.mem_cons_self c cs)
    have hclen : 0 < c.length := List.length_pos.mpr hc
    have hsum' : pre.length + (c.length + (cs.map List.length).sum) = L := by
      simpa using hsum
    have hw : heapWrite st.heap buf.allocId pre.length c
        = st.heap.set buf.allocId (pre ++ c ++ post.drop c.length) := by
      unfold heapWrite
      simp only [hheap]
      rw [writeBytes_at_split, List.append_assoc]
    by_cases hcs : cs = []
    · subst hcs
      have hlast : pre.length + c.length = L := by simpa using hsum
      simp only [mkFrags, processPayloads, List.foldl_cons, List.foldl_nil]
      unfold processPayload
      simp only [hfind, hget, hskip, Bool.false_eq_true, if_false]
      rw [if_neg (by omega)]
      simp only [hact, hw]
      rw [if_pos hlast]
      simp only [henc, if_true]
      simp [fragViews, List.append_assoc]
    · have hsumpos : 0 < (cs.map List.length).sum :=
        sum_len_pos cs hcs (fun x hx => hmem x (List.mem_cons_of_mem _ hx))
      have hstep : processPayload st
          { streamNumber := s, mediaObjectLength := L, payloadSize := c.length,
            offsetIntoMediaObject := pre.length, presentationTime := time,
            keyframe := kf, payloadData := c }
          = { st with
              heap := st.heap.set buf.allocId (pre ++ c ++ post.drop c.length)
              tracks := st.tracks.set tIdx
                { track with
                  bufferQueue := track.bufferQueue ++
                    [{ buf with rangeOffset := pre.length, rangeLength := c.length }] } } := by
        unfold processPayload
        simp only [hfind, hget, hskip, Bool.false_eq_true, if_false]
        rw [if_neg (by omega)]
        simp only [hact, hw]
        rw [if_neg (by omega)]
        simp only [henc, if_true]
      simp only [mkFrags, processPayloads, List.foldl_cons]
      have htlen : tIdx < st.tracks.length := get?_lt_length _ _ _ hget
      have hgoal := ih
        { st with
          heap := st.heap.set buf.allocId (pre ++ c ++ post.drop c.length)
          tracks := st.tracks.set tIdx
            { track with
              bufferQueue := track.bufferQueue ++
                [{ buf with rangeOffset := pre.length, rangeLength := c.length }] } }
        { track with
          bufferQueue := track.bufferQueue ++
            [{ buf with rangeOffset := pre.length, rangeLength := c.length }] }
        buf (pre ++ c) (post.drop c.length)
        (by
          simp only
          exact (getTrackByStreamNumber_set st.tracks s tIdx track
            { track with
              bufferQueue := track.bufferQueue ++
                [{ buf with rangeOffset := pre.length, rangeLength := c.length }] }
            hget rfl).trans hfind)
        (by simp only; exact get?_set_self _ _ _ htlen)
        hskip henc hact
        (by
          simp only
          rw [get?_set_self _ _ _ (get?_lt_length _ _ _ hheap)])
        hcs (fun x hx => hmem x (List.mem_cons_of_mem _ hx))
        (by simp [List.length_append]; omega)
        (by simp [List.length_append]; omega)
      rw [List.length_append] at hgoal
      change processPayloads (processPayload st _) _ = _
      rw [hstep, hgoal]
      simp only [List.set_set, List.flatten_cons, List.drop_drop, List.length_append,
                 List.append_assoc, fragViews, List.singleton_append]

/-- C7: the same fragmented object on an encrypted active track emits
exactly one buffer per fragment, in fragment order: the queue gains
`fragViews` — for each fragment a view of the shared allocation with
logical range equal to that fragment's `[offset, offset + length)`
(head view `[0, c1.length)` for the first fragment, the in-progress
buffer itself restricted to the final fragment's range for the last) —
after which the in-progress slot is cleared.  The view count equals the
fragment count and all views share the single allocation. -/
theorem fragmented_encrypted_per_fragment_emit (st : ExtState) (tIdx : Nat)
    (track : Track) (s L time : Nat) (kf : Bool) (c1 : List Nat)
    (rest : List (List Nat))
    (hfind : getTrackByStreamNumber st.tracks s = some tIdx)
    (hget : st.tracks.get? tIdx = some track)
    (hskip : track.skipTrack = false)
    (henc : track.encrypted = true)
    (hc1 : c1 ≠ []) (hrest : rest ≠ [])
    (hmem : ∀ c ∈ rest, c ≠ [])
    (hL : c1.length + (rest.map List.length).sum = L) :
    (processPayloads st (mkFrags s L time kf 0 (c1 :: rest))).tracks =
      st.tracks.set tIdx
        { track with
          bufferActive := none
          bufferQueue := track.bufferQueue ++
            fragViews (objBuffer st.heap.length L time kf) 0 (c1 :: rest) }
    ∧ (fragViews (objBuffer st.heap.length L time kf) 0 (c1 :: rest)).length
        = (c1 :: rest).length
    ∧ (∀ b ∈ fragViews (objBuffer st.heap.length L time kf) 0 (c1 :: rest),
        b.allocId = st.heap.length) := by
  have hrestpos : 0 < (rest.map List.length).sum := sum_len_pos rest hrest hmem
  have hc1len : 0 < c1.length := List.length_pos.mpr hc1
  have htlen : tIdx < st.tracks.length := get?_lt_length _ _ _ hget
  have hfirst : processPayloads st (mkFrags s L time kf 0 (c1 :: rest))
      = processPayloads
        { st with
          heap := st.heap ++
            [c1 ++ List.replicate ((objBuffer st.heap.length L time kf).allocSize - c1.length) 0]
          tracks := st.tracks.set tIdx
            { track with
              bufferActive := some (objBuffer st.heap.length L time kf)
              bufferQueue := track.bufferQueue ++
                [{ objBuffer st.heap.length L time kf with
                   rangeOffset := 0, rangeLength := c1.length }] } }
        (mkFrags s L time kf c1.length rest) := by
    simp only [mkFrags, processPayloads, List.foldl_cons, Nat.zero_add]
    congr 1
    unfold processPayload
    simp only [hfind, hget, hskip, Bool.false_eq_true, if_false]
    rw [if_pos (Or.inr trivial)]
    rw [if_neg (by omega)]
    simp only [henc, if_true, allocObjBuffer]
    rw [writeBytes_fresh]
  have hfind1 : getTrackByStreamNumber
      (st.tracks.set tIdx
        { track with
          bufferActive := some (objBuffer st.heap.length L time kf)
          bufferQueue := track.bufferQueue ++
            [{ objBuffer st.heap.length L time kf with
               rangeOffset := 0, rangeLength := c1.length }] }) s
      = some tIdx :=
    (getTrackByStreamNumber_set st.tracks s tIdx track
      { track with
        bufferActive := some (objBuffer st.heap.length L time kf)
        bufferQueue := track.bufferQueue ++
          [{ objBuffer st.heap.length L time kf with
             rangeOffset := 0, rangeLength := c1.length }] }
      hget rfl).trans hfind
  have hget1 : (st.tracks.set tIdx
      { track with
        bufferActive := some (objBuffer st.heap.length L time kf)
        bufferQueue := track.bufferQueue ++
          [{ objBuffer st.heap.length L time kf with
             rangeOffset := 0, rangeLength := c1.length }] }).get? tIdx
      = some
        { track with
          bufferActive := some (objBuffer st.heap.length L time kf)
          bufferQueue := track.bufferQueue ++
            [{ objBuffer st.heap.length L time kf with
               rangeOffset := 0, rangeLength := c1.length }] } :=
    get?_set_self _ _ _ htlen
  refine ⟨?_, fragViews_length _ _ _, fun b hb => fragViews_allocId _ _ _ b hb⟩
  rw [hfirst]
  rw [processFrags_loop_enc s L time kf tIdx rest _
    { track with
      bufferActive := some (objBuffer st.heap.length L time kf)
      bufferQueue := track.bufferQueue ++
        [{ objBuffer st.heap.length L time kf with
           rangeOffset := 0, rangeLength := c1.length }] }
    (objBuffer st.heap.length L time kf) c1
    (List.replicate ((objBuffer st.heap.length L time kf).allocSize - c1.length) 0)
    hfind1 hget1 hskip henc rfl
    (by
      simp only
      rw [show (objBuffer st.heap.length L time kf).allocId = st.heap.length from rfl,
          get?_concat_self])
    hrest hmem hc1len hL]
  simp only [List.set_set, fragViews, List.append_assoc, List.singleton_append,
             Nat.zero_add]

/-- C7 witness (three one-byte fragments on an encrypted track). -/
theorem fragmented_encrypted_per_fragment_emit_witness :
    (processPayloads sampleStateEnc (mkFrags 1 3 5 true 0 [[10], [20], [30]])).tracks =
      sampleStateEnc.tracks.set 0
        { sampleTrackEnc with
          bufferActive := none
          bufferQueue := sampleTrackEnc.bufferQueue ++
            fragViews (objBuffer sampleStateEnc.heap.length 3 5 true) 0 [[10], [20], [30]] }
    ∧ (fragViews (objBuffer sampleStateEnc.heap.length 3 5 true) 0 [[10], [20], [30]]).length
        = [[10], [20], [30]].length :=
  have h := fragmented_encrypted_per_fragment_emit sampleStateEnc 0 sampleTrackEnc
    1 3 5 true [10] [[20], [30]] (by decide) (by decide) (by decide) (by decide)
    (by decide) (by decide) (by decide) (by decide)
  ⟨h.1, h.2.1⟩

/-! ## Claim C8 -/

/-- C8: a payload whose object length equals its payload length on an
active track pushes exactly one buffer to that track's queue
immediately; the allocation size is the least multiple of 4096 at
least `objectLength` (multiple, lower bound, and upper bound below
`objectLength + 4096`), the logical range is `[0, objectLength)`, the
content is byte-identical to the payload bytes, and the presentation
timestamp (`presentationTime * 1000` microseconds) and sync flag
(`keyframe`) are stamped on the buffer. -/
theorem whole_object_single_buffer (st : ExtState) (p : Payload)
    (tIdx : Nat) (track : Track)
    (hfind : getTrackByStreamNumber st.tracks p.streamNumber = some tIdx)
    (hget : st.tracks.get? tIdx = some track)
    (hskip : track.skipTrack = false)
    (hwhole : p.mediaObjectLength = p.payloadSize)
    (hdata : p.payloadData.length = p.payloadSize) :
    processPayload st p =
      { st with
        heap := st.heap ++
          [p.payloadData ++
            List.replicate
              ((allocObjBuffer st.heap.length p).allocSize - p.mediaObjectLength) 0]
        tracks := st.tracks.set tIdx
          { track with
            bufferQueue := track.bufferQueue ++ [allocObjBuffer st.heap.length p] } }
    ∧ (allocObjBuffer st.heap.length p).allocSize % 4096 = 0
    ∧ p.mediaObjectLength ≤ (allocObjBuffer st.heap.length p).allocSize
    ∧ (allocObjBuffer st.heap.length p).allocSize < p.mediaObjectLength + 4096
    ∧ (allocObjBuffer st.heap.length p).rangeOffset = 0
    ∧ (allocObjBuffer st.heap.length p).rangeLength = p.mediaObjectLength
    ∧ (allocObjBuffer st.heap.length p).timeUs = p.presentationTime * 1000
    ∧ (allocObjBuffer st.heap.length p).isSync = p.keyframe
    ∧ bufContent (processPayload st p) (allocObjBuffer st.heap.length p)
        = p.payloadData := by
  have hwr : writeBytes
      (List.replicate (allocObjBuffer st.heap.length p).allocSize 0) 0 p.payloadData
      = p.payloadData ++ List.replicate
          ((allocObjBuffer st.heap.length p).allocSize - p.mediaObjectLength) 0 := by
    unfold writeBytes
    rw [hwhole]
    simp [List.drop_replicate, hdata]
  have heq : processPayload st p =
      { st with
        heap := st.heap ++
          [p.payloadData ++
            List.replicate
              ((allocObjBuffer st.heap.length p).allocSize - p.mediaObjectLength) 0]
        tracks := st.tracks.set tIdx
          { track with
            bufferQueue := track.bufferQueue ++ [allocObjBuffer st.heap.length p] } } := by
    unfold processPayload
    simp only [hfind, hget, hskip, Bool.false_eq_true, if_false, hwhole, hwr,
               eq_self_iff_true, true_or, if_true]
  have hsize : (allocObjBuffer st.heap.length p).allocSize
      = ((p.mediaObjectLength + 4096 - 1) / 4096) * 4096 := rfl
  have hdm := Nat.div_add_mod (p.mediaObjectLength + 4095) 4096
  have hmlt : (p.mediaObjectLength + 4095) % 4096 < 4096 :=
    Nat.mod_lt _ (by norm_num)
  refine ⟨heq, ?_, ?_, ?_, rfl, rfl, rfl, rfl, ?_⟩
  · rw [hsize]
    exact Nat.mul_mod_left _ _
  · rw [hsize]
    omega
  · rw [hsize]
    omega
  · rw [heq]
    unfold bufContent
    have hid : (allocObjBuffer st.heap.length p).allocId = st.heap.length := rfl
    rw [hid]
    simp only [get?_concat_self, Option.getD_some]
    have hro : (allocObjBuffer st.heap.length p).rangeOffset = 0 := rfl
    have hrl : (allocObjBuffer st.heap.length p).rangeLength
        = p.payloadData.length := by
      rw [hdata]
      exact hwhole
    rw [hro, hrl, List.drop_zero, List.take_left]

/-- C8 witness. -/
theorem whole_object_single_buffer_witness :
    bufContent (processPayload sampleState1 samplePayload)
        (allocObjBuffer sampleState1.heap.length samplePayload)
      = samplePayload.payloadData
    ∧ (allocObjBuffer sampleState1.heap.length samplePayload).allocSize % 4096 = 0 :=
  have h := whole_object_single_buffer sampleState1 samplePayload 0 sampleTrack
    (by decide) (by decide) (by decide) (by decide) (by decide)
  ⟨h.2.2.2.2.2.2.2.2, h.2.1⟩

/-! ## Claim C10 -/

/-- C10: for every track index at or past the number of registered
tracks, `read` returns `BAD_VALUE` with the state unchanged and no
buffer, the index walk `getTrackByTrackIndex` yields `NULL` rather
than faulting, and `getTrack` / `getTrackMetaData` return `NULL` for
that index (with `getTrack` leaving the state unchanged). -/
theorem read_invalid_index (fuel : Nat)
    (ps : Int → Bool → Option (Nat × Nat))
    (readAt : Nat → Nat → Option (List Nat))
    (parsePkt : List Nat → Option (List Payload)) (st : ExtState)
    (options : Option ReadOptions) (n : Nat)
    (h : st.tracks.length ≤ n) :
    read fuel ps readAt parsePkt st (n : Int) options
      = some (st, Status.BAD_VALUE, none)
    ∧ getTrackByTrackIndex st.tracks (n : Int) = none
    ∧ getTrack st n = (st, none)
    ∧ getTrackMetaData st n = none := by
  have hnone : getTrackByTrackIndex st.tracks (n : Int) = none :=
    getTrackByTrackIndex_eq_none _ _ (by exact_mod_cast h)
  refine ⟨?_, hnone, ?_, ?_⟩
  · unfold read
    rw [hnone]
  · unfold getTrack
    rw [hnone]
  · unfold getTrackMetaData
    rw [hnone]

/-- C10 witness (index 2 on a two-track extractor). -/
theorem read_invalid_index_witness :
    read 5 sampleSeek sampleReadAt sampleParse sampleState ((2 : Nat) : Int) none
      = some (sampleState, Status.BAD_VALUE, none)
    ∧ getTrackByTrackIndex sampleState.tracks ((2 : Nat) : Int) = none
    ∧ getTrack sampleState 2 = (sampleState, none)
    ∧ getTrackMetaData sampleState 2 = none :=
  read_invalid_index 5 sampleSeek sampleReadAt sampleParse sampleState none 2
    (by decide)

end Asf
